import Mathlib

/-!
# ShaderStash (include/shader-stash.hpp)

A shallow embedding of the class `shs::ShaderStash`: the cache lookup `get`,
the configuration setters, the hot-reload lifecycle `setHotReload` and the
worker loop `watchFiles` with its per-file body.

Conventions of the embedding.

* `fs::path` and `std::string` are `String`; `path::filename` and
  `path::extension` are embedded for the POSIX generic format (separator `/`).
* A `std::shared_ptr<vk::raii::ShaderModule>` is an `Option Nat`: a module
  handle is the index of the module in the list of modules the device has
  created so far; `nullptr` is `none`.
* Time points of `std::chrono::file_clock` and the `int64_t` second count of
  the scan interval are `Int`; no arithmetic is performed on either.
* `std::unordered_map` is an association list; `find` is a lookup by key,
  `insert` does nothing when the key is present, and assignment through the
  iterator returned by `find` overwrites the value in place.
* The collaborators (`std::hash<std::string>`, `shaderc::Compiler`,
  `vk::raii::Device`) are parameters, gathered in `Collaborators`.
* `vk::raii::Device::createShaderModule` reports failure by throwing, and so
  do the directory iterator and the queries `is_regular_file()`,
  `last_write_time()` and `exists()` of a directory entry (`none` in
  `directory_entry`, `throws` in `Listing`); nothing in `watchFiles` catches,
  so the worker ends at the throw (`Outcome.threw`).
-/

namespace shs

/-! ## Collaborator types -/

/-- The values of `shaderc_shader_kind` used by the class. -/
inductive shaderc_shader_kind where
  | shaderc_vertex_shader
  | shaderc_fragment_shader
  | shaderc_geometry_shader
  | shaderc_tess_control_shader
  | shaderc_tess_evaluation_shader
  | shaderc_compute_shader
  | shaderc_glsl_infer_from_source
  deriving DecidableEq, Repr

open shaderc_shader_kind

/-- A `shaderc::SpvCompilationResult`: the compilation status (`0` is
`shaderc_compilation_status_success`) and the words in `[cbegin(), cend())`. -/
structure SpvCompilationResult where
  status : Nat
  words : List Nat
  deriving DecidableEq, Repr

/-- The external operations the class calls. `createShaderModule ms code`
tells whether the device, having created the modules `ms` so far, creates a
module from `code` (`true`) or fails, which `vk::raii` turns into a throw. -/
structure Collaborators where
  hash : String → Nat
  CompileGlslToSpv : String → shaderc_shader_kind → String → SpvCompilationResult
  createShaderModule : List (List Nat) → List Nat → Bool

/-- What one `fs::directory_entry` of the recursive iteration answers to the
queries of the loop, `none` standing for a query that throws
`fs::filesystem_error` (`last_write_time()` does so for a file that has
vanished or whose time the file clock cannot represent), and what opening its
path for reading yields (`none`: the stream fails to open). -/
structure directory_entry where
  path : String
  is_regular_file : Option Bool
  last_write_time : Option Int
  «exists» : Option Bool
  contents : Option String
  deriving DecidableEq, Repr

/-- What iterating `fs::recursive_directory_iterator` over the folder gives:
the entries it yields, and whether it then throws `fs::filesystem_error`
(when constructed on a folder that is missing, with no entries yielded, or
when stepping into a folder it cannot read). -/
structure Listing where
  entries : List directory_entry
  throws : Bool
  deriving DecidableEq, Repr

/-! ## Paths -/

/-- The characters after the last `/` of a path. -/
def filenameChars (p : List Char) : List Char :=
  (p.reverse.takeWhile (fun c => c != '/')).reverse

/-- Embedding of `fs::path::filename`. -/
def path_filename (p : String) : String :=
  String.mk (filenameChars p.data)

/-- The extension of a filename given as characters: empty for `.`, `..`, a
name without a period and a name whose only period is its first character;
otherwise the part from the rightmost period on. -/
def extensionChars (f : List Char) : List Char :=
  if f = ['.'] ∨ f = ['.', '.'] then []
  else if f.contains '.' then
    let ext := '.' :: (f.reverse.takeWhile (fun c => c != '.')).reverse
    if ext.length = f.length then [] else ext
  else []

/-- Embedding of `fs::path::extension`. -/
def path_extension (p : String) : String :=
  String.mk (extensionChars (filenameChars p.data))

/-! ## The class state -/

/-- The data members of `ShaderStash`. `hotReloadThread` is the id of the
thread the `std::jthread` member owns, `0` standing for `std::jthread::id()`,
the id of a `jthread` that owns no thread. -/
structure ShaderStash where
  scanInterval : Int
  shaderFolderPath : String
  shouldHotReload : Bool
  hotReloadThread : Nat
  shaders : List (String × (Nat × Nat))
  deriving DecidableEq, Repr

/-- What the worker does that is visible outside the object: the calls of the
compiler and of the device, the notices written to `std::cout` (recorded with
the path of the entry they name), and the waits between passes. -/
inductive Event where
  | compile (source : String) (kind : shaderc_shader_kind) (name : String)
  | createShaderModule (code : List Nat) (created : Bool)
  | added (path : String)
  | updated (path : String)
  | wait_for (seconds : Int)
  deriving DecidableEq, Repr

/-- The stash together with the state around it: the modules the device has
created (a handle is an index into this list), the events so far, the ids of
the threads started and not yet joined, and the number of threads ever
started. -/
structure World where
  stash : ShaderStash
  modules : List (List Nat)
  trace : List Event
  live : List Nat
  spawned : Nat
  deriving DecidableEq, Repr

/-- The constructor: it initialises the folder path; `shouldHotReload` is
`false`, the thread member owns no thread, the map is empty. `scanInterval`
has no initialiser, so its value is whatever `indeterminate` is. -/
def ShaderStash.new (shaderFolderPath_ : String) (indeterminate : Int) : ShaderStash :=
  { scanInterval := indeterminate
    shaderFolderPath := shaderFolderPath_
    shouldHotReload := false
    hotReloadThread := 0
    shaders := [] }

/-- A world holding a freshly constructed stash and a device that has created
the modules `ms`. -/
def World.fresh (shaderFolderPath_ : String) (indeterminate : Int) (ms : List (List Nat)) : World :=
  { stash := ShaderStash.new shaderFolderPath_ indeterminate
    modules := ms
    trace := []
    live := []
    spawned := 0 }

/-! ## The map operations used by the class -/

/-- Embedding of `shaders.find(key)`: the value stored under `key`, if any. -/
def find (m : List (String × (Nat × Nat))) (key : String) : Option (Nat × Nat) :=
  match m with
  | [] => none
  | kv :: rest => if kv.1 = key then some kv.2 else find rest key

/-- Embedding of `stashEntry->second = p` for the iterator found under `key`. -/
def assign (m : List (String × (Nat × Nat))) (key : String) (p : Nat × Nat) :
    List (String × (Nat × Nat)) :=
  match m with
  | [] => []
  | kv :: rest => if kv.1 = key then (kv.1, p) :: rest else kv :: assign rest key p

/-- Embedding of `shaders.insert` of the pair of `key` and `p`: no effect when
`key` is present. -/
def insert (m : List (String × (Nat × Nat))) (key : String) (p : Nat × Nat) :
    List (String × (Nat × Nat)) :=
  match find m key with
  | some _ => m
  | none => m ++ [(key, p)]

/-! ## Public member functions -/

/-- Embedding of `ShaderStash::get`: the result and the object afterwards. -/
def get (s : ShaderStash) (shaderFileName : String) : Option Nat × ShaderStash :=
  match find s.shaders shaderFileName with
  | none => (none, s)
  | some result => (some result.2, s)

/-- Embedding of `ShaderStash::getScanInterval`. -/
def getScanInterval (s : ShaderStash) : Int := s.scanInterval

/-- Embedding of `ShaderStash::setScanInterval`. -/
def setScanInterval (s : ShaderStash) (interval : Int) : ShaderStash :=
  { s with scanInterval := interval }

/-- Embedding of `ShaderStash::getHotReload`. -/
def getHotReload (s : ShaderStash) : Bool := s.shouldHotReload

/-- Embedding of `request_stop(); join()` on the thread member: the worker
leaves its loop and the member owns no thread afterwards. -/
def stopAndJoin (w : World) : World :=
  { w with
    live := w.live.erase w.stash.hotReloadThread
    stash := { w.stash with hotReloadThread := 0 } }

/-- Embedding of `ShaderStash::setHotReload`. Assigning a new `std::jthread` to
the member first stops and joins the thread the member owns, if any, and then
starts the worker. -/
def setHotReload (w : World) (val : Bool) : World :=
  let w1 : World := { w with stash := { w.stash with shouldHotReload := val } }
  let isRunning : Bool := w1.stash.hotReloadThread != 0
  if val == isRunning then w1
  else if w1.stash.shouldHotReload then
    let w2 : World := if w1.stash.hotReloadThread != 0 then stopAndJoin w1 else w1
    let id : Nat := w2.spawned + 1
    { w2 with
      spawned := id
      live := id :: w2.live
      stash := { w2.stash with hotReloadThread := id } }
  else stopAndJoin w1

/-! ## Private member functions -/

/-- The static table `ShaderStash::knownExtensions`. -/
def knownExtensions : List (String × shaderc_shader_kind) :=
  [ (".vert", shaderc_vertex_shader), (".frag", shaderc_fragment_shader),
    (".geom", shaderc_geometry_shader), (".tesc", shaderc_tess_control_shader),
    (".tese", shaderc_tess_evaluation_shader), (".comp", shaderc_compute_shader) ]

/-- Embedding of `ShaderStash::inferShaderKindFromFileExtension`. -/
def inferShaderKindFromFileExtension (extension : String) : shaderc_shader_kind :=
  match knownExtensions.find? (fun kv => kv.1 = extension) with
  | some lookupKind => lookupKind.2
  | none => shaderc_glsl_infer_from_source

/-- Embedding of `ShaderStash::readFileContents`: the function does not test
whether the stream opened; a stream that failed to open yields no characters,
so the string returned is empty. -/
def readFileContents (entry : directory_entry) : String :=
  match entry.contents with
  | some s => s
  | none => ""

/-- How the body of the `for` loop, or a whole pass, ends: normally, or by an
exception (of `createShaderModule`, or of the filesystem library) leaving
`watchFiles`. -/
inductive Outcome where
  | next (w : World)
  | threw (w : World)
  deriving DecidableEq, Repr

/-- The world an outcome carries. -/
def Outcome.world : Outcome → World
  | .next w => w
  | .threw w => w

/-- The test that makes the `for` loop `continue` at once,
`!entry.is_regular_file() || entry.last_write_time() < lastScanTimestamp ||
!entry.exists()`, evaluated from left to right and stopping at the first
operand that is true: `some true` when the loop continues, `some false` when
the entry is inspected, `none` when a query that is evaluated throws. -/
def skipped (lastScanTimestamp : Int) (entry : directory_entry) : Option Bool :=
  match entry.is_regular_file with
  | none => none
  | some false => some true
  | some true =>
    match entry.last_write_time with
    | none => none
    | some time =>
      if time < lastScanTimestamp then some true
      else
        match entry.exists with
        | none => none
        | some found => some (!found)

/-- Embedding of the body of the `for` loop of `watchFiles`. -/
def scanEntry (c : Collaborators) (lastScanTimestamp : Int) (w : World)
    (entry : directory_entry) : Outcome :=
  match skipped lastScanTimestamp entry with
  | none => .threw w
  | some true => .next w
  | some false =>
    let filename := path_filename entry.path
    let fileContents := readFileContents entry
    let fileContentHash := c.hash fileContents
    let stashEntry := find w.stash.shaders filename
    let isPresentInStash := stashEntry.isSome
    let isContentTheSame := isPresentInStash && (stashEntry.map Prod.fst == some fileContentHash)
    if isPresentInStash && isContentTheSame then .next w
    else
      let shaderKind := inferShaderKindFromFileExtension (path_extension entry.path)
      let compilationResult := c.CompileGlslToSpv fileContents shaderKind filename
      let spirvCode := compilationResult.words
      let created := c.createShaderModule w.modules spirvCode
      let trace1 := w.trace ++ [Event.compile fileContents shaderKind filename,
        Event.createShaderModule spirvCode created]
      if created then
        let p : Nat × Nat := (fileContentHash, w.modules.length)
        let modules1 := w.modules ++ [spirvCode]
        if isPresentInStash then
          .next { w with
            stash := { w.stash with shaders := assign w.stash.shaders filename p }
            modules := modules1
            trace := trace1 ++ [Event.updated entry.path] }
        else
          .next { w with
            stash := { w.stash with shaders := insert w.stash.shaders filename p }
            modules := modules1
            trace := trace1 ++ [Event.added entry.path] }
      else .threw { w with trace := trace1 }

/-- Embedding of the `for` loop of `watchFiles` over the entries the recursive
directory iterator yields: one scan pass. -/
def scanPass (c : Collaborators) (lastScanTimestamp : Int) (w : World) :
    List directory_entry → Outcome
  | [] => .next w
  | entry :: rest =>
    match scanEntry c lastScanTimestamp w entry with
    | .next w1 => scanPass c lastScanTimestamp w1 rest
    | .threw w1 => .threw w1

/-- Embedding of the `for` loop of `watchFiles` together with the iterator it
runs on: the pass over the entries yielded, ended by the exception of the
iterator when it throws. -/
def scanDirectory (c : Collaborators) (lastScanTimestamp : Int) (w : World)
    (dir : Listing) : Outcome :=
  match scanPass c lastScanTimestamp w dir.entries with
  | .next w1 => if dir.throws then .threw w1 else .next w1
  | .threw w1 => .threw w1

/-- What the worker observes in one turn of its `while` loop: whether a stop
has been requested, what iterating over `shaderFolderPath` gives, and the
reading of `file_clock::now()` after the pass. -/
structure Turn where
  stop_requested : Bool
  dir : Listing
  now : Int
  deriving DecidableEq, Repr

/-- Embedding of `ShaderStash::watchFiles`, run on the observations of its
successive turns: it returns when a stop is seen, ends by the exception of a
pass, and otherwise is still in its loop when the observations end. The wait
after each pass is `wait_for(mutex, stopToken, 1s, ...)`. -/
def watchFilesFrom (c : Collaborators) (lastScanTimestamp : Int) (w : World) :
    List Turn → Outcome
  | [] => .next w
  | t :: rest =>
    if t.stop_requested then .next w
    else
      match scanDirectory c lastScanTimestamp w t.dir with
      | .threw w1 => .threw w1
      | .next w1 =>
        watchFilesFrom c t.now { w1 with trace := w1.trace ++ [Event.wait_for 1] } rest

/-- The worker started by `setHotReload(true)`: `lastScanTimestamp` is
default-constructed, the epoch of the file clock. -/
def watchFiles (c : Collaborators) (w : World) (turns : List Turn) : Outcome :=
  watchFilesFrom c 0 w turns

/-! ## Notions used in the statements -/

/-- The fingerprint cached under a file name, if any. -/
def fingerprint (w : World) (f : String) : Option Nat :=
  (find w.stash.shaders f).map Prod.fst

/-- The words the compiler returns for an entry as the pass compiles it. -/
def compiledCode (c : Collaborators) (entry : directory_entry) : List Nat :=
  (c.CompileGlslToSpv (readFileContents entry)
    (inferShaderKindFromFileExtension (path_extension entry.path))
    (path_filename entry.path)).words

/-- The map after the pass has written `p` under `key`: assignment through
the iterator when the key was found, insertion otherwise. -/
def store (m : List (String × (Nat × Nat))) (key : String) (p : Nat × Nat) :
    List (String × (Nat × Nat)) :=
  if (find m key).isSome then assign m key p else insert m key p

/-- The world after a file has been compiled and its module created and
stored. -/
def recompiled (c : Collaborators) (w : World) (entry : directory_entry) : World :=
  { w with
    stash := { w.stash with
      shaders := store w.stash.shaders (path_filename entry.path)
        (c.hash (readFileContents entry), w.modules.length) }
    modules := w.modules ++ [compiledCode c entry]
    trace := w.trace ++ [Event.compile (readFileContents entry)
        (inferShaderKindFromFileExtension (path_extension entry.path)) (path_filename entry.path),
      Event.createShaderModule (compiledCode c entry) true,
      if (find w.stash.shaders (path_filename entry.path)).isSome
      then Event.updated entry.path else Event.added entry.path] }

/-- The world when the device has refused the compiled code of a file. -/
def refused (c : Collaborators) (w : World) (entry : directory_entry) : World :=
  { w with
    trace := w.trace ++ [Event.compile (readFileContents entry)
        (inferShaderKindFromFileExtension (path_extension entry.path)) (path_filename entry.path),
      Event.createShaderModule (compiledCode c entry) false] }
/-- The number of compiler invocations recorded in a trace. -/
def compilerInvocations (tr : List Event) : Nat :=
  (tr.filter (fun ev => match ev with
    | .compile _ _ _ => true
    | _ => false)).length

/-- The number of calls of `createShaderModule` recorded in a trace. -/
def deviceCalls (tr : List Event) : Nat :=
  (tr.filter (fun ev => match ev with
    | .createShaderModule _ _ => true
    | _ => false)).length
/-- A sequence of `setHotReload` calls, one after the other. -/
def runCalls (w : World) : List Bool → World
  | [] => w
  | val :: rest => runCalls (setHotReload w val) rest

/-- The timeouts of the waits recorded in a trace, in seconds. -/
def waits : List Event → List Int
  | [] => []
  | .wait_for seconds :: rest => seconds :: waits rest
  | _ :: rest => waits rest

/-- The lifecycle invariant: the flag tells whether the thread member owns a
thread, and the threads started and not joined are exactly that thread. -/
def Settled (w : World) : Prop :=
  w.stash.shouldHotReload = (w.stash.hotReloadThread != 0) ∧
  w.live = (if w.stash.hotReloadThread = 0 then [] else [w.stash.hotReloadThread])

/-- The invariant of the cache: the fingerprint stored under a name is the hash
of some content, and the module stored with it was created from the code the
compiler returned for that content with the kind of the name's extension. -/
def Coherent (c : Collaborators) (w : World) : Prop :=
  ∀ (f : String) (fp h : Nat), find w.stash.shaders f = some (fp, h) →
    ∃ S : String, fp = c.hash S ∧
      w.modules[h]? = some (c.CompileGlslToSpv S
        (inferShaderKindFromFileExtension (path_extension f)) f).words

/-! ## Concrete collaborators and files for the scenarios -/

/-- The 64-bit FNV-1a hash of the character codes of a string, a function in
use as `std::hash<std::string>`. -/
def fnv1a (s : String) : Nat :=
  s.data.foldl (fun h ch => ((h ^^^ ch.toNat) * 1099511628211) % 2 ^ 64) 14695981039346656037

/-- A number for each shader kind, put in front of the code by
`scenarioCompiler`. -/
def stageTag : shaderc_shader_kind → Nat
  | shaderc_vertex_shader => 0
  | shaderc_fragment_shader => 1
  | shaderc_compute_shader => 2
  | shaderc_geometry_shader => 3
  | shaderc_tess_control_shader => 4
  | shaderc_tess_evaluation_shader => 5
  | shaderc_glsl_infer_from_source => 6

/-- A compiler for the scenarios: a source that starts with `#` compiles, to
the tag of the kind followed by its character codes; any other source fails
and, as with shaderc, the failed result holds no words. -/
def scenarioCompiler (source : String) (kind : shaderc_shader_kind) (_name : String) :
    SpvCompilationResult :=
  if source.data.head? = some '#' then
    { status := 0, words := stageTag kind :: source.data.map Char.toNat }
  else { status := 1, words := [] }

/-- Collaborators whose device creates a module from any code. -/
def lenient : Collaborators :=
  { hash := fnv1a
    CompileGlslToSpv := scenarioCompiler
    createShaderModule := fun _ _ => true }

/-- Collaborators whose device fails on empty code. -/
def strict : Collaborators :=
  { hash := fnv1a
    CompileGlslToSpv := scenarioCompiler
    createShaderModule := fun _ code => !code.isEmpty }

/-- A readable regular file. -/
def file (path : String) (last_write_time : Int) (content : String) : directory_entry :=
  { path := path
    is_regular_file := some true
    last_write_time := some last_write_time
    «exists» := some true
    contents := some content }

/-- A regular file that passes the test of the loop and then fails to open. -/
def unopened (path : String) (last_write_time : Int) : directory_entry :=
  { path := path
    is_regular_file := some true
    last_write_time := some last_write_time
    «exists» := some true
    contents := none }

/-- A regular file that has vanished since the iterator read its directory:
the entry still answers with the file type it was read with, the query of the
last write time throws, and the file cannot be opened. -/
def vanished (path : String) : directory_entry :=
  { path := path
    is_regular_file := some true
    last_write_time := none
    «exists» := some true
    contents := none }

/-- The world of the scenarios before the first pass. -/
def start : World := World.fresh "shaders" 0 []

/-! ## The map operations -/

theorem find_mem (m : List (String × (Nat × Nat))) (key : String) (v : Nat × Nat)
    (hnd : (m.map Prod.fst).Nodup) (h : (key, v) ∈ m) : find m key = some v := by
  induction m with
  | nil => simp at h
  | cons kv rest ih =>
    simp only [List.map_cons, List.nodup_cons] at hnd
    rcases List.mem_cons.mp h with h | h
    · subst h; simp [find]
    · have hne : kv.1 ≠ key := by
        intro he
        exact hnd.1 (he ▸ List.mem_map_of_mem Prod.fst h)
      simp [find, hne, ih hnd.2 h]

theorem find_none (m : List (String × (Nat × Nat))) (key : String) :
    find m key = none ↔ ∀ v, (key, v) ∉ m := by
  induction m with
  | nil => simp [find]
  | cons kv rest ih =>
    by_cases hk : kv.1 = key
    · simp only [find, hk, if_true]
      constructor
      · intro h; cases h
      · intro h; exact absurd (List.mem_cons_self _ _) (hk ▸ h kv.2)
    · simp only [find, hk, if_false, ih, List.mem_cons, not_or]
      constructor
      · intro h v; exact ⟨fun he => hk (by rw [← he]), h v⟩
      · intro h v; exact (h v).2

theorem find_some_mem (m : List (String × (Nat × Nat))) (key : String) (v : Nat × Nat)
    (h : find m key = some v) : (key, v) ∈ m := by
  induction m with
  | nil => simp [find] at h
  | cons kv rest ih =>
    by_cases hk : kv.1 = key
    · simp [find, hk] at h
      subst h; subst hk; simp
    · simp [find, hk] at h
      exact List.mem_cons_of_mem _ (ih h)


theorem find_assign_same (m : List (String × (Nat × Nat))) (key : String) (p : Nat × Nat)
    (h : (find m key).isSome) : find (assign m key p) key = some p := by
  induction m with
  | nil => simp [find] at h
  | cons kv rest ih =>
    by_cases hk : kv.1 = key
    · simp [find, assign, hk]
    · simp [find, hk] at h
      simp [find, assign, hk, ih h]

theorem find_assign_other (m : List (String × (Nat × Nat))) (key other : String) (p : Nat × Nat)
    (hne : other ≠ key) : find (assign m key p) other = find m other := by
  induction m with
  | nil => simp [find, assign]
  | cons kv rest ih =>
    by_cases hk : kv.1 = key
    · have : kv.1 ≠ other := fun he => hne (he ▸ hk)
      simp [find, assign, hk, this, Ne.symm hne]
    · simp only [assign, hk, if_false, find, ih]

theorem keys_assign (m : List (String × (Nat × Nat))) (key : String) (p : Nat × Nat) :
    (assign m key p).map Prod.fst = m.map Prod.fst := by
  induction m with
  | nil => simp [assign]
  | cons kv rest ih =>
    by_cases hk : kv.1 = key <;> simp [assign, hk, ih]

theorem find_append (m m2 : List (String × (Nat × Nat))) (key : String) :
    find (m ++ m2) key = (find m key).orElse (fun _ => find m2 key) := by
  induction m with
  | nil => simp [find]
  | cons kv rest ih =>
    by_cases hk : kv.1 = key <;> simp [find, hk, ih]

theorem find_insert_same (m : List (String × (Nat × Nat))) (key : String) (p : Nat × Nat)
    (h : find m key = none) : find (insert m key p) key = some p := by
  simp [insert, h, find_append, find]

theorem find_insert_other (m : List (String × (Nat × Nat))) (key other : String) (p : Nat × Nat)
    (hne : other ≠ key) : find (insert m key p) other = find m other := by
  unfold insert
  cases hf : find m key with
  | some v => rfl
  | none =>
    simp only [find_append, find, Ne.symm hne, if_false]
    cases find m other <;> rfl

theorem keys_insert (m : List (String × (Nat × Nat))) (key : String) (p : Nat × Nat)
    (h : find m key = none) : (insert m key p).map Prod.fst = m.map Prod.fst ++ [key] := by
  simp [insert, h]

theorem find_isSome_iff (m : List (String × (Nat × Nat))) (key : String) :
    (find m key).isSome ↔ key ∈ m.map Prod.fst := by
  induction m with
  | nil => simp [find]
  | cons kv rest ih =>
    by_cases hk : kv.1 = key
    · simp [find, hk]
    · simp only [find, hk, if_false, ih, List.map_cons, List.mem_cons]
      constructor
      · intro h; exact Or.inr h
      · rintro (h | h)
        · exact absurd h.symm hk
        · exact h

/-! ## The body of the loop and the pass -/

/-- The five ways the body of the loop can go: the entry is skipped; its
content has the cached fingerprint; it is compiled and its module stored; it
is compiled and the device throws; a query of the test throws. -/
theorem scanEntry_cases (c : Collaborators) (t : Int) (w : World) (e : directory_entry) :
    (skipped t e = some true ∧ scanEntry c t w e = .next w) ∨
    (skipped t e = some false
      ∧ fingerprint w (path_filename e.path) = some (c.hash (readFileContents e))
      ∧ scanEntry c t w e = .next w) ∨
    (skipped t e = some false
      ∧ fingerprint w (path_filename e.path) ≠ some (c.hash (readFileContents e))
      ∧ c.createShaderModule w.modules (compiledCode c e) = true
      ∧ scanEntry c t w e = .next (recompiled c w e)) ∨
    (skipped t e = some false
      ∧ fingerprint w (path_filename e.path) ≠ some (c.hash (readFileContents e))
      ∧ c.createShaderModule w.modules (compiledCode c e) = false
      ∧ scanEntry c t w e = .threw (refused c w e)) ∨
    (skipped t e = none ∧ scanEntry c t w e = .threw w) := by
  cases hs : skipped t e with
  | none => right; right; right; right; simp [scanEntry, hs]
  | some b =>
  cases b with
  | true => left; simp [scanEntry, hs]
  | false =>
    right
    cases hf : find w.stash.shaders (path_filename e.path) with
    | none =>
      right
      cases hd : c.createShaderModule w.modules (compiledCode c e) with
      | true =>
        left
        simp only [compiledCode] at hd
        simp [scanEntry, hs, hf, hd, fingerprint, recompiled, store, compiledCode]
      | false =>
        right
        simp only [compiledCode] at hd
        simp [scanEntry, hs, hf, hd, fingerprint, refused, compiledCode]
    | some v =>
      by_cases hv : v.1 = c.hash (readFileContents e)
      · left
        simp [scanEntry, hs, hf, hv, fingerprint]
      · right
        cases hd : c.createShaderModule w.modules (compiledCode c e) with
        | true =>
          left
          simp only [compiledCode] at hd
          simp [scanEntry, hs, hf, hd, hv, fingerprint, recompiled, store, compiledCode]
        | false =>
          right
          simp only [compiledCode] at hd
          simp [scanEntry, hs, hf, hd, hv, fingerprint, refused, compiledCode]

theorem find_store_same (m : List (String × (Nat × Nat))) (key : String) (p : Nat × Nat) :
    find (store m key p) key = some p := by
  unfold store
  cases h : find m key with
  | none => simpa using find_insert_same m key p h
  | some v => simpa using find_assign_same m key p (by simp [h])

theorem find_store_other (m : List (String × (Nat × Nat))) (key other : String) (p : Nat × Nat)
    (hne : other ≠ key) : find (store m key p) other = find m other := by
  unfold store
  split
  · exact find_assign_other m key other p hne
  · exact find_insert_other m key other p hne

theorem keys_store_present (m : List (String × (Nat × Nat))) (key : String) (p : Nat × Nat)
    (h : (find m key).isSome) : (store m key p).map Prod.fst = m.map Prod.fst := by
  simp [store, h, keys_assign]

theorem keys_store_absent (m : List (String × (Nat × Nat))) (key : String) (p : Nat × Nat)
    (h : find m key = none) : (store m key p).map Prod.fst = m.map Prod.fst ++ [key] := by
  simp [store, h, keys_insert]

theorem nodup_store (m : List (String × (Nat × Nat))) (key : String) (p : Nat × Nat)
    (hnd : (m.map Prod.fst).Nodup) : ((store m key p).map Prod.fst).Nodup := by
  cases h : find m key with
  | some v => rw [keys_store_present m key p (by simp [h])]; exact hnd
  | none =>
    rw [keys_store_absent m key p h]
    have hnot : key ∉ m.map Prod.fst := by
      intro hmem
      have := (find_isSome_iff m key).mpr hmem
      simp [h] at this
    exact List.Nodup.append hnd (List.nodup_singleton key) (by
      intro a ha hb
      rw [List.mem_singleton] at hb
      exact hnot (hb ▸ ha))

/-- The body of the loop leaves the entries of other file names alone. -/
theorem scanEntry_find_other (c : Collaborators) (t : Int) (w : World) (e : directory_entry)
    (f : String) (hne : f ≠ path_filename e.path) :
    find (scanEntry c t w e).world.stash.shaders f = find w.stash.shaders f := by
  rcases scanEntry_cases c t w e with h | h | h | h | h
  · rw [h.2]; rfl
  · rw [h.2.2]; rfl
  · rw [h.2.2.2]
    simp only [Outcome.world, recompiled]
    exact find_store_other _ _ _ _ hne
  · rw [h.2.2.2]; rfl
  · rw [h.2]; rfl

/-- The body of the loop only ever appends to the modules of the device. -/
theorem scanEntry_modules (c : Collaborators) (t : Int) (w : World) (e : directory_entry) :
    ∃ tl, (scanEntry c t w e).world.modules = w.modules ++ tl := by
  rcases scanEntry_cases c t w e with h | h | h | h | h
  · exact ⟨[], by rw [h.2]; simp [Outcome.world]⟩
  · exact ⟨[], by rw [h.2.2]; simp [Outcome.world]⟩
  · exact ⟨[compiledCode c e], by rw [h.2.2.2]; simp [Outcome.world, recompiled]⟩
  · exact ⟨[], by rw [h.2.2.2]; simp [Outcome.world, refused]⟩
  · exact ⟨[], by rw [h.2]; simp [Outcome.world]⟩

/-- The body of the loop keeps the keys of the map distinct. -/
theorem scanEntry_nodup (c : Collaborators) (t : Int) (w : World) (e : directory_entry)
    (hnd : (w.stash.shaders.map Prod.fst).Nodup) :
    ((scanEntry c t w e).world.stash.shaders.map Prod.fst).Nodup := by
  rcases scanEntry_cases c t w e with h | h | h | h | h
  · rw [h.2]; exact hnd
  · rw [h.2.2]; exact hnd
  · rw [h.2.2.2]; simp only [Outcome.world, recompiled]; exact nodup_store _ _ _ hnd
  · rw [h.2.2.2]; exact hnd
  · rw [h.2]; exact hnd

/-- An entry that completes and was not skipped leaves its content's
fingerprint under its file name. -/
theorem scanEntry_fingerprint (c : Collaborators) (t : Int) (w w1 : World) (e : directory_entry)
    (hins : skipped t e = some false) (hdone : scanEntry c t w e = .next w1) :
    fingerprint w1 (path_filename e.path) = some (c.hash (readFileContents e)) := by
  rcases scanEntry_cases c t w e with h | h | h | h | h
  · rw [hins] at h; exact absurd h.1 (by simp)
  · rw [h.2.2] at hdone; cases hdone; exact h.2.1
  · rw [h.2.2.2] at hdone; cases hdone
    simp [fingerprint, recompiled, find_store_same]
  · rw [h.2.2.2] at hdone; cases hdone
  · rw [h.2] at hdone; cases hdone

/-- The keys of the map stay as they are when the file name is cached. -/
theorem scanEntry_keys_present (c : Collaborators) (t : Int) (w : World) (e : directory_entry)
    (hp : skipped t e = some false → (find w.stash.shaders (path_filename e.path)).isSome) :
    (scanEntry c t w e).world.stash.shaders.map Prod.fst = w.stash.shaders.map Prod.fst := by
  rcases scanEntry_cases c t w e with h | h | h | h | h
  · rw [h.2]; rfl
  · rw [h.2.2]; rfl
  · rw [h.2.2.2]; simp only [Outcome.world, recompiled]
    exact keys_store_present _ _ _ (hp h.1)
  · rw [h.2.2.2]; rfl
  · rw [h.2]; rfl

/-- A pass over two listings in a row is the pass over the first followed, when
it completes, by the pass over the second. -/
theorem scanPass_append (c : Collaborators) (t : Int) (w : World) (l1 l2 : List directory_entry) :
    scanPass c t w (l1 ++ l2) =
      match scanPass c t w l1 with
      | .next w1 => scanPass c t w1 l2
      | .threw w1 => .threw w1 := by
  induction l1 generalizing w with
  | nil => simp [scanPass]
  | cons e rest ih =>
    simp only [List.cons_append, scanPass]
    cases scanEntry c t w e with
    | next w1 => simpa using ih w1
    | threw w1 => rfl

/-- A pass leaves the entry of `f` alone when every file of that name it
inspects has the content whose fingerprint is cached. -/
theorem scanPass_find_stable (c : Collaborators) (t : Int) (f : String)
    (l : List directory_entry) (w : World)
    (h : ∀ e ∈ l, skipped t e = some false → path_filename e.path = f →
      fingerprint w f = some (c.hash (readFileContents e))) :
    find (scanPass c t w l).world.stash.shaders f = find w.stash.shaders f := by
  induction l generalizing w with
  | nil => rfl
  | cons e rest ih =>
    have hstep : find (scanEntry c t w e).world.stash.shaders f = find w.stash.shaders f := by
      by_cases hn : f = path_filename e.path
      · rcases scanEntry_cases c t w e with h1 | h1 | h1 | h1 | h1
        · rw [h1.2]; rfl
        · rw [h1.2.2]; rfl
        · exact absurd (hn ▸ h e (List.mem_cons_self _ _) h1.1 hn.symm) h1.2.1
        · rw [h1.2.2.2]; rfl
        · rw [h1.2]; rfl
      · exact scanEntry_find_other c t w e f hn
    simp only [scanPass]
    cases hse : scanEntry c t w e with
    | threw w1 => rw [hse] at hstep; exact hstep
    | next w1 =>
      rw [hse] at hstep
      simp only [Outcome.world] at hstep
      rw [← hstep]
      apply ih
      intro e1 he1 hs1 hn1
      have := h e1 (List.mem_cons_of_mem _ he1) hs1 hn1
      simpa [fingerprint, hstep] using this

/-- A pass only ever appends to the modules of the device. -/
theorem scanPass_modules (c : Collaborators) (t : Int) (l : List directory_entry) (w : World) :
    ∃ tl, (scanPass c t w l).world.modules = w.modules ++ tl := by
  induction l generalizing w with
  | nil => exact ⟨[], by simp [scanPass, Outcome.world]⟩
  | cons e rest ih =>
    obtain ⟨tl1, h1⟩ := scanEntry_modules c t w e
    simp only [scanPass]
    cases hse : scanEntry c t w e with
    | threw w1 => rw [hse] at h1; exact ⟨tl1, h1⟩
    | next w1 =>
      rw [hse] at h1
      obtain ⟨tl2, h2⟩ := ih w1
      simp only [Outcome.world] at h1
      exact ⟨tl1 ++ tl2, by simp only [h2, h1, List.append_assoc]⟩

/-- A pass keeps the keys of the map distinct. -/
theorem scanPass_nodup (c : Collaborators) (t : Int) (l : List directory_entry) (w : World)
    (hnd : (w.stash.shaders.map Prod.fst).Nodup) :
    ((scanPass c t w l).world.stash.shaders.map Prod.fst).Nodup := by
  induction l generalizing w with
  | nil => exact hnd
  | cons e rest ih =>
    have h1 := scanEntry_nodup c t w e hnd
    simp only [scanPass]
    cases hse : scanEntry c t w e with
    | threw w1 => rw [hse] at h1; exact h1
    | next w1 => rw [hse] at h1; exact ih w1 h1

/-- A pass over files that are all cached leaves the keys of the map as they
are. -/
theorem scanPass_keys_present (c : Collaborators) (t : Int) (l : List directory_entry) (w : World)
    (hp : ∀ e ∈ l, skipped t e = some false → (find w.stash.shaders (path_filename e.path)).isSome) :
    (scanPass c t w l).world.stash.shaders.map Prod.fst = w.stash.shaders.map Prod.fst := by
  induction l generalizing w with
  | nil => rfl
  | cons e rest ih =>
    have h1 := scanEntry_keys_present c t w e (hp e (List.mem_cons_self _ _))
    simp only [scanPass]
    cases hse : scanEntry c t w e with
    | threw w1 => rw [hse] at h1; exact h1
    | next w1 =>
      rw [hse] at h1
      simp only [Outcome.world] at h1
      rw [← h1]
      apply ih
      intro e1 he1 hs1
      rw [find_isSome_iff, h1, ← find_isSome_iff]
      exact hp e1 (List.mem_cons_of_mem _ he1) hs1

/-- Taking the file name of a file name changes nothing. -/
theorem filenameChars_idem (p : List Char) : filenameChars (filenameChars p) = filenameChars p := by
  simp [filenameChars, List.takeWhile_idem]

/-- The extension of a path is the extension of its file name. -/
theorem path_extension_filename (p : String) :
    path_extension (path_filename p) = path_extension p := by
  simp [path_extension, path_filename, filenameChars_idem]

/-- A completed pass that inspects `e`, the only inspected file of its name,
while the cache does not hold the fingerprint of its content, leaves under that
name the fingerprint and a module created during the pass from the code the
compiler returned for `e`. -/
theorem scanPass_stores (c : Collaborators) (t : Int) (e : directory_entry)
    (l : List directory_entry) (w w1 : World)
    (he : e ∈ l) (hins : skipped t e = some false)
    (honly : ∀ e1 ∈ l, skipped t e1 = some false →
      path_filename e1.path = path_filename e.path → e1 = e)
    (hfresh : fingerprint w (path_filename e.path) ≠ some (c.hash (readFileContents e)))
    (hdone : scanPass c t w l = .next w1) :
    ∃ h, find w1.stash.shaders (path_filename e.path) = some (c.hash (readFileContents e), h) ∧
      w.modules.length ≤ h ∧ w1.modules[h]? = some (compiledCode c e) := by
  induction l generalizing w with
  | nil => simp at he
  | cons e0 rest ih =>
    simp only [scanPass] at hdone
    cases hse : scanEntry c t w e0 with
    | threw wa => rw [hse] at hdone; cases hdone
    | next wa =>
      rw [hse] at hdone
      simp only at hdone
      by_cases hcase : skipped t e0 = some false ∧ path_filename e0.path = path_filename e.path
      · have he0 : e0 = e := honly e0 (List.mem_cons_self _ _) hcase.1 hcase.2
        subst he0
        rcases scanEntry_cases c t w e0 with h1 | h1 | h1 | h1 | h1
        · rw [hins] at h1; exact absurd h1.1 (by simp)
        · exact absurd h1.2.1 hfresh
        · rw [h1.2.2.2] at hse; cases hse
          have hstable := scanPass_find_stable c t (path_filename e0.path) rest (recompiled c w e0)
            (by
              intro e1 he1 hs1 hn1
              have := honly e1 (List.mem_cons_of_mem _ he1) hs1 hn1
              subst this
              simp [fingerprint, recompiled, find_store_same])
          rw [hdone] at hstable
          obtain ⟨tl, hmod⟩ := scanPass_modules c t rest (recompiled c w e0)
          rw [hdone] at hmod
          simp only [Outcome.world] at hstable hmod
          refine ⟨w.modules.length, ?_, le_refl _, ?_⟩
          · rw [hstable]; simp [recompiled, find_store_same]
          · rw [hmod]
            simp only [recompiled, List.append_assoc]
            rw [List.getElem?_append_right (le_refl _)]
            simp
        · rw [h1.2.2.2] at hse; cases hse
        · rw [hins] at h1; exact absurd h1.1 (by simp)
      · have hne : e ≠ e0 := by
          intro h; subst h; exact hcase ⟨hins, rfl⟩
        have hmem : e ∈ rest := by
          rcases List.mem_cons.mp he with h | h
          · exact absurd h hne
          · exact h
        have hfind : find wa.stash.shaders (path_filename e.path) =
            find w.stash.shaders (path_filename e.path) := by
          by_cases hn : path_filename e.path = path_filename e0.path
          · have hsk : skipped t e0 ≠ some false := fun hsk => hcase ⟨hsk, hn.symm⟩
            rcases scanEntry_cases c t w e0 with h1 | h1 | h1 | h1 | h1
            · rw [h1.2] at hse; cases hse; rfl
            · exact absurd h1.1 hsk
            · exact absurd h1.1 hsk
            · exact absurd h1.1 hsk
            · rw [h1.2] at hse; cases hse
          · have := scanEntry_find_other c t w e0 (path_filename e.path) hn
            rw [hse] at this; exact this
        obtain ⟨tl, hmod⟩ := scanEntry_modules c t w e0
        rw [hse] at hmod
        simp only [Outcome.world] at hmod
        obtain ⟨h, h1, h2, h3⟩ := ih wa hmem
          (fun e1 he1 => honly e1 (List.mem_cons_of_mem _ he1))
          (by simpa [fingerprint, hfind] using hfresh) hdone
        refine ⟨h, h1, ?_, h3⟩
        rw [hmod] at h2
        simp only [List.length_append] at h2
        omega

/-- The state before any pass is coherent. -/
theorem coherent_fresh (c : Collaborators) (folder : String) (junk : Int)
    (ms : List (List Nat)) : Coherent c (World.fresh folder junk ms) := by
  intro f fp h hf
  simp [World.fresh, ShaderStash.new, find] at hf

/-- The body of the loop keeps the cache coherent. -/
theorem coherent_scanEntry (c : Collaborators) (t : Int) (w : World) (e : directory_entry)
    (hc : Coherent c w) : Coherent c (scanEntry c t w e).world := by
  rcases scanEntry_cases c t w e with h | h | h | h | h
  · rw [h.2]; exact hc
  · rw [h.2.2]; exact hc
  · rw [h.2.2.2]
    intro f fp m hf
    simp only [Outcome.world, recompiled] at hf ⊢
    by_cases hn : f = path_filename e.path
    · subst hn
      rw [find_store_same] at hf
      cases hf
      refine ⟨readFileContents e, rfl, ?_⟩
      rw [List.getElem?_append_right (le_refl _)]
      simp [compiledCode, path_extension_filename]
    · rw [find_store_other _ _ _ _ hn] at hf
      obtain ⟨S, hS, hm⟩ := hc f fp m hf
      refine ⟨S, hS, ?_⟩
      have hlt : m < w.modules.length := by
        by_contra hge
        rw [List.getElem?_eq_none (Nat.le_of_not_lt hge)] at hm
        cases hm
      rw [List.getElem?_append_left hlt]
      exact hm
  · rw [h.2.2.2]; exact hc
  · rw [h.2]; exact hc

/-- Every pass keeps the cache coherent: the fingerprint stored under a name
is the hash of a content from whose compiled code, with the kind of the name's
extension, the stored module was created. -/
theorem coherent_scanPass (c : Collaborators) (t : Int) (l : List directory_entry) (w : World)
    (hc : Coherent c w) : Coherent c (scanPass c t w l).world := by
  induction l generalizing w with
  | nil => exact hc
  | cons e rest ih =>
    have h1 := coherent_scanEntry c t w e hc
    simp only [scanPass]
    cases hse : scanEntry c t w e with
    | threw w1 => rw [hse] at h1; exact h1
    | next w1 => rw [hse] at h1; exact ih w1 h1

/-! ## Lookup -/

/-- C1: `get` returns the module stored under the identifier when the map has
an entry for it and `none` when it has none, the stash is the same afterwards,
and a freshly constructed stash answers `none` for every identifier. -/
theorem get_returns_stored_module (s : ShaderStash) (shaderFileName : String)
    (hnd : (s.shaders.map Prod.fst).Nodup) :
    (∀ fp m, (shaderFileName, (fp, m)) ∈ s.shaders → (get s shaderFileName).1 = some m) ∧
    ((∀ v, (shaderFileName, v) ∉ s.shaders) → (get s shaderFileName).1 = none) ∧
    (get s shaderFileName).2 = s ∧
    (∀ folder junk, (get (ShaderStash.new folder junk) shaderFileName).1 = none) := by
  refine ⟨?_, ?_, ?_, ?_⟩
  · intro fp m hmem
    simp [get, find_mem s.shaders shaderFileName (fp, m) hnd hmem]
  · intro habs
    simp [get, (find_none s.shaders shaderFileName).mpr habs]
  · unfold get
    cases find s.shaders shaderFileName <;> rfl
  · intro folder junk
    simp [get, ShaderStash.new, find]

/-- C1 on a stash with two entries: a cached name and a name never seen. -/
theorem get_returns_stored_module_witness :
    (get { (ShaderStash.new "shaders" 0) with shaders := [("a.frag", (7, 0)), ("b.vert", (9, 1))] }
        "b.vert").1 = some 1 ∧
    (get { (ShaderStash.new "shaders" 0) with shaders := [("a.frag", (7, 0)), ("b.vert", (9, 1))] }
        "c.comp").1 = none :=
  have h := get_returns_stored_module
    { (ShaderStash.new "shaders" 0) with shaders := [("a.frag", (7, 0)), ("b.vert", (9, 1))] }
  ⟨(h "b.vert" (by decide)).1 9 1 (by decide),
    (h "c.comp" (by decide)).2.1 (by intro v hv; simp at hv)⟩


/-! ## The extension table -/

/-- C3: the six known extensions map to their shader kinds, and every other
extension, the empty one included, maps to `shaderc_glsl_infer_from_source`. -/
theorem inferShaderKindFromFileExtension_table :
    inferShaderKindFromFileExtension ".vert" = shaderc_vertex_shader ∧
    inferShaderKindFromFileExtension ".frag" = shaderc_fragment_shader ∧
    inferShaderKindFromFileExtension ".geom" = shaderc_geometry_shader ∧
    inferShaderKindFromFileExtension ".tesc" = shaderc_tess_control_shader ∧
    inferShaderKindFromFileExtension ".tese" = shaderc_tess_evaluation_shader ∧
    inferShaderKindFromFileExtension ".comp" = shaderc_compute_shader ∧
    ∀ extension : String,
      extension ≠ ".vert" → extension ≠ ".frag" → extension ≠ ".geom" →
      extension ≠ ".tesc" → extension ≠ ".tese" → extension ≠ ".comp" →
      inferShaderKindFromFileExtension extension = shaderc_glsl_infer_from_source := by
  refine ⟨by decide, by decide, by decide, by decide, by decide, by decide, ?_⟩
  intro extension h1 h2 h3 h4 h5 h6
  simp [inferShaderKindFromFileExtension, knownExtensions, List.find?, Ne.symm h1, Ne.symm h2,
    Ne.symm h3, Ne.symm h4, Ne.symm h5, Ne.symm h6]

/-- C3 on the empty extension and on `.xyz`. -/
theorem inferShaderKindFromFileExtension_table_witness :
    inferShaderKindFromFileExtension "" = shaderc_glsl_infer_from_source ∧
    inferShaderKindFromFileExtension ".xyz" = shaderc_glsl_infer_from_source :=
  ⟨inferShaderKindFromFileExtension_table.2.2.2.2.2.2 "" (by decide) (by decide) (by decide)
      (by decide) (by decide) (by decide),
    inferShaderKindFromFileExtension_table.2.2.2.2.2.2 ".xyz" (by decide) (by decide) (by decide)
      (by decide) (by decide) (by decide)⟩

/-! ## What a pass caches -/

/-- C2 fails as stated: the pass inspects `shaders/a/x.vert` with content `#A`,
yet afterwards `get` of `x.vert` returns the module created from the code of
`#B`, the content of `shaders/b/x.vert`, and the fingerprint is that of `#B`. -/
theorem same_name_overwrites :
    file "shaders/a/x.vert" 10 "#A" ∈
      [file "shaders/a/x.vert" 10 "#A", file "shaders/b/x.vert" 10 "#B"] ∧
    skipped 0 (file "shaders/a/x.vert" 10 "#A") = some false ∧
    (file "shaders/a/x.vert" 10 "#A").contents = some "#A" ∧
    path_filename "shaders/a/x.vert" = "x.vert" ∧
    ∃ w1, scanPass lenient 0 start
        [file "shaders/a/x.vert" 10 "#A", file "shaders/b/x.vert" 10 "#B"] = .next w1 ∧
      (get w1.stash "x.vert").1 = some 1 ∧
      find w1.stash.shaders "x.vert" = some (fnv1a "#B", 1) ∧
      fnv1a "#B" ≠ fnv1a "#A" ∧
      w1.modules[1]? = some (scenarioCompiler "#B" shaderc_vertex_shader "x.vert").words ∧
      (scenarioCompiler "#B" shaderc_vertex_shader "x.vert").words ≠
        (scenarioCompiler "#A" shaderc_vertex_shader "x.vert").words := by
  refine ⟨by decide, by decide, rfl, by decide, _, rfl, ?_⟩
  decide

/-- C2, amended: after a completed pass that inspects a readable regular file
`e` with content `S`, the only inspected file of its name, while the cache does
not hold the fingerprint of `S` under that name, `get` of the name returns a
module the device created during the pass from the compiler's output for `S`
with the kind inferred from the name's extension, and the stored fingerprint
is the hash of `S`. -/
theorem scanPass_caches_inspected_file (c : Collaborators) (t : Int) (w w1 : World)
    (l : List directory_entry) (e : directory_entry) (S : String)
    (he : e ∈ l) (hins : skipped t e = some false) (hcont : e.contents = some S)
    (honly : ∀ e1 ∈ l, skipped t e1 = some false →
      path_filename e1.path = path_filename e.path → e1 = e)
    (hfresh : fingerprint w (path_filename e.path) ≠ some (c.hash S))
    (hdone : scanPass c t w l = .next w1) :
    ∃ h, (get w1.stash (path_filename e.path)).1 = some h ∧
      find w1.stash.shaders (path_filename e.path) = some (c.hash S, h) ∧
      w.modules.length ≤ h ∧
      w1.modules[h]? = some (c.CompileGlslToSpv S
        (inferShaderKindFromFileExtension (path_extension (path_filename e.path)))
        (path_filename e.path)).words := by
  have hread : readFileContents e = S := by simp [readFileContents, hcont]
  obtain ⟨h, h1, h2, h3⟩ := scanPass_stores c t e l w w1 he hins honly
    (by rw [hread]; exact hfresh) hdone
  rw [hread] at h1
  refine ⟨h, by simp [get, h1], h1, h2, ?_⟩
  rw [h3, compiledCode, hread, path_extension_filename]

/-- C2, amended, on a first pass over two files, for the file `b.xyz`. -/
theorem scanPass_caches_inspected_file_witness :
    ∃ h, (get (scanPass lenient 0 start
          [file "shaders/a.frag" 10 "#A", file "shaders/sub/b.xyz" 10 "#B"]).world.stash
          (path_filename "shaders/sub/b.xyz")).1 = some h ∧
      find (scanPass lenient 0 start
          [file "shaders/a.frag" 10 "#A", file "shaders/sub/b.xyz" 10 "#B"]).world.stash.shaders
          (path_filename "shaders/sub/b.xyz") = some (fnv1a "#B", h) ∧
      start.modules.length ≤ h ∧
      (scanPass lenient 0 start
          [file "shaders/a.frag" 10 "#A", file "shaders/sub/b.xyz" 10 "#B"]).world.modules[h]? =
        some (scenarioCompiler "#B"
          (inferShaderKindFromFileExtension (path_extension (path_filename "shaders/sub/b.xyz")))
          (path_filename "shaders/sub/b.xyz")).words :=
  scanPass_caches_inspected_file lenient 0 start
    (scanPass lenient 0 start
      [file "shaders/a.frag" 10 "#A", file "shaders/sub/b.xyz" 10 "#B"]).world
    [file "shaders/a.frag" 10 "#A", file "shaders/sub/b.xyz" 10 "#B"]
    (file "shaders/sub/b.xyz" 10 "#B") "#B"
    (by decide) (by decide) rfl (by decide) (by decide) (by decide)

/-- Strings are infinitely many. -/
theorem infinite_strings : Infinite String :=
  Infinite.of_injective (fun n : Nat => String.mk (List.replicate n 'a')) (by
    intro a b h
    have := congrArg (fun s : String => s.data.length) h
    simpa using this)

/-- Whatever the hash, as long as its values fit in 64 bits, there are two
different contents with one fingerprint, and a cached file whose content
changes from the one to the other is not compiled again. -/
theorem colliding_content_not_recompiled (c : Collaborators)
    (hbound : ∀ s, c.hash s < 2 ^ 64) :
    ∃ S S1 : String, S ≠ S1 ∧ c.hash S = c.hash S1 ∧
      ∀ (t : Int) (w : World) (e : directory_entry) (h : Nat),
        e.contents = some S1 →
        find w.stash.shaders (path_filename e.path) = some (c.hash S, h) →
        (scanEntry c t w e).world = w := by
  haveI := infinite_strings
  obtain ⟨S, S1, hne, heq⟩ := Finite.exists_ne_map_eq_of_infinite
    (fun s : String => (⟨c.hash s, hbound s⟩ : Fin (2 ^ 64)))
  have heq1 : c.hash S = c.hash S1 := congrArg Fin.val heq
  refine ⟨S, S1, hne, heq1, ?_⟩
  intro t w e h hcont hfind
  have hread : readFileContents e = S1 := by simp [readFileContents, hcont]
  rcases scanEntry_cases c t w e with h1 | h1 | h1 | h1 | h1
  · rw [h1.2]; rfl
  · rw [h1.2.2]; rfl
  · exact absurd (by simp [fingerprint, hfind, hread, heq1]) h1.2.1
  · exact absurd (by simp [fingerprint, hfind, hread, heq1]) h1.2.1
  · rw [h1.2]; rfl

/-- C5 fails as stated: a file whose content changed but whose last-write time
lies before the baseline is not inspected, so its entry stays as it was; and a
changed file for whose code the device fails ends the pass with the entry as
it was. -/
theorem changed_file_not_replaced :
    (∃ w1, scanPass lenient 0 start [file "shaders/a.frag" 10 "#A"] = .next w1 ∧
      find w1.stash.shaders "a.frag" = some (fnv1a "#A", 0) ∧
      scanPass lenient 20 w1 [file "shaders/a.frag" 15 "#B"] = .next w1 ∧
      fnv1a "#B" ≠ fnv1a "#A") ∧
    (∃ w1 w2, scanPass strict 0 start [file "shaders/a.frag" 10 "#A"] = .next w1 ∧
      find w1.stash.shaders "a.frag" = some (fnv1a "#A", 0) ∧
      scanPass strict 20 w1 [file "shaders/a.frag" 30 "oops"] = .threw w2 ∧
      find w2.stash.shaders "a.frag" = some (fnv1a "#A", 0) ∧
      fnv1a "oops" ≠ fnv1a "#A") := by
  refine ⟨⟨_, rfl, ?_⟩, ⟨_, _, rfl, ?_, rfl, ?_⟩⟩
  · decide
  · decide
  · decide

/-- C5, amended: when a file cached under its name is inspected by a pass that
completes, is the only inspected file of that name, and has a content whose
hash differs from the cached fingerprint, the entry is replaced, not appended:
it holds the new fingerprint and a module created during the pass from the
compiled new content, the name still has exactly one entry, and the
identifiers of the map are those before the pass when every inspected file was
already cached. -/
theorem scanPass_replaces_changed_file (c : Collaborators) (t : Int) (w w1 : World)
    (l : List directory_entry) (e : directory_entry) (S : String) (old : Nat × Nat)
    (hnd : (w.stash.shaders.map Prod.fst).Nodup)
    (hcached : find w.stash.shaders (path_filename e.path) = some old)
    (he : e ∈ l) (hins : skipped t e = some false) (hcont : e.contents = some S)
    (honly : ∀ e1 ∈ l, skipped t e1 = some false →
      path_filename e1.path = path_filename e.path → e1 = e)
    (hchanged : c.hash S ≠ old.1)
    (hdone : scanPass c t w l = .next w1) :
    ∃ h, find w1.stash.shaders (path_filename e.path) = some (c.hash S, h) ∧
      w.modules.length ≤ h ∧
      w1.modules[h]? = some (c.CompileGlslToSpv S
        (inferShaderKindFromFileExtension (path_extension (path_filename e.path)))
        (path_filename e.path)).words ∧
      (w1.stash.shaders.map Prod.fst).count (path_filename e.path) = 1 ∧
      ((∀ e1 ∈ l, skipped t e1 = some false →
          (find w.stash.shaders (path_filename e1.path)).isSome) →
        w1.stash.shaders.map Prod.fst = w.stash.shaders.map Prod.fst) := by
  have hread : readFileContents e = S := by simp [readFileContents, hcont]
  have hfresh : fingerprint w (path_filename e.path) ≠ some (c.hash (readFileContents e)) := by
    rw [hread]
    simp only [fingerprint, hcached, Option.map_some', ne_eq, Option.some.injEq]
    exact fun h => hchanged h.symm
  obtain ⟨h, h1, h2, h3⟩ := scanPass_stores c t e l w w1 he hins honly hfresh hdone
  rw [hread] at h1
  have hnd1 := scanPass_nodup c t l w hnd
  rw [hdone] at hnd1
  simp only [Outcome.world] at hnd1
  refine ⟨h, h1, h2, ?_, ?_, ?_⟩
  · rw [h3, compiledCode, hread, path_extension_filename]
  · apply List.count_eq_one_of_mem hnd1
    rw [← find_isSome_iff, h1]; rfl
  · intro hall
    have := scanPass_keys_present c t l w hall
    rw [hdone] at this
    exact this

/-- C5, amended, on `a.frag` cached with `#A` and changed to `#B`. -/
theorem scanPass_replaces_changed_file_witness :
    ∃ h, find (scanPass lenient 20
          (scanPass lenient 0 start [file "shaders/a.frag" 10 "#A"]).world
          [file "shaders/a.frag" 30 "#B"]).world.stash.shaders
          (path_filename "shaders/a.frag") = some (fnv1a "#B", h) ∧
      (scanPass lenient 0 start [file "shaders/a.frag" 10 "#A"]).world.modules.length ≤ h ∧
      (scanPass lenient 20
          (scanPass lenient 0 start [file "shaders/a.frag" 10 "#A"]).world
          [file "shaders/a.frag" 30 "#B"]).world.modules[h]? =
        some (scenarioCompiler "#B"
          (inferShaderKindFromFileExtension (path_extension (path_filename "shaders/a.frag")))
          (path_filename "shaders/a.frag")).words ∧
      ((scanPass lenient 20
          (scanPass lenient 0 start [file "shaders/a.frag" 10 "#A"]).world
          [file "shaders/a.frag" 30 "#B"]).world.stash.shaders.map Prod.fst).count
          (path_filename "shaders/a.frag") = 1 ∧
      ((∀ e1 ∈ [file "shaders/a.frag" 30 "#B"], skipped 20 e1 = some false →
          (find (scanPass lenient 0 start [file "shaders/a.frag" 10 "#A"]).world.stash.shaders
            (path_filename e1.path)).isSome) →
        (scanPass lenient 20
          (scanPass lenient 0 start [file "shaders/a.frag" 10 "#A"]).world
          [file "shaders/a.frag" 30 "#B"]).world.stash.shaders.map Prod.fst =
        (scanPass lenient 0 start [file "shaders/a.frag" 10 "#A"]).world.stash.shaders.map
          Prod.fst) :=
  scanPass_replaces_changed_file lenient 20
    (scanPass lenient 0 start [file "shaders/a.frag" 10 "#A"]).world
    (scanPass lenient 20
      (scanPass lenient 0 start [file "shaders/a.frag" 10 "#A"]).world
      [file "shaders/a.frag" 30 "#B"]).world
    [file "shaders/a.frag" 30 "#B"] (file "shaders/a.frag" 30 "#B") "#B" (fnv1a "#A", 0)
    (by decide) (by decide) (by decide) (by decide) rfl (by decide) (by decide) (by decide)

/-! ## A second pass -/

/-- What a later baseline inspects, an earlier one inspects. -/
theorem skipped_mono (t0 t1 : Int) (e : directory_entry) (h : t0 ≤ t1)
    (hs : skipped t1 e = some false) : skipped t0 e = some false := by
  unfold skipped at hs ⊢
  cases hr : e.is_regular_file with
  | none => rw [hr] at hs; cases hs
  | some r =>
    cases r with
    | false => rw [hr] at hs; cases hs
    | true =>
      rw [hr] at hs
      cases hm : e.last_write_time with
      | none => rw [hm] at hs; cases hs
      | some time =>
        rw [hm] at hs
        simp only at hs ⊢
        by_cases h1 : time < t1
        · rw [if_pos h1] at hs; cases hs
        · rw [if_neg h1] at hs
          have h0 : ¬ time < t0 := fun hlt => h1 (lt_of_lt_of_le hlt h)
          rw [if_neg h0]
          exact hs

/-- When no query of the test throws under an earlier baseline, none throws
under a later one. -/
theorem skipped_defined_mono (t0 t1 : Int) (e : directory_entry) (h : t0 ≤ t1)
    (hs : skipped t0 e ≠ none) : skipped t1 e ≠ none := by
  unfold skipped at hs ⊢
  cases hr : e.is_regular_file with
  | none => rw [hr] at hs; exact absurd rfl hs
  | some r =>
    cases r with
    | false => simp
    | true =>
      rw [hr] at hs
      cases hm : e.last_write_time with
      | none => rw [hm] at hs; exact absurd rfl hs
      | some time =>
        rw [hm] at hs
        simp only at hs ⊢
        by_cases h1 : time < t1
        · rw [if_pos h1]; simp
        · rw [if_neg h1]
          have h0 : ¬ time < t0 := fun hlt => h1 (lt_of_lt_of_le hlt h)
          rw [if_neg h0] at hs
          exact hs

/-- In a pass that completes no query of the test throws. -/
theorem scanPass_defined (c : Collaborators) (t : Int) (l : List directory_entry)
    (w w1 : World) (hdone : scanPass c t w l = .next w1) :
    ∀ e ∈ l, skipped t e ≠ none := by
  induction l generalizing w with
  | nil => intro e he; simp at he
  | cons e0 rest ih =>
    intro e he
    simp only [scanPass] at hdone
    cases hse : scanEntry c t w e0 with
    | threw wa => rw [hse] at hdone; cases hdone
    | next wa =>
      rw [hse] at hdone
      rcases List.mem_cons.mp he with h | h
      · subst h
        intro hnone
        simp [scanEntry, hnone] at hse
      · exact ih wa hdone e h

/-- After a completed pass, the cache holds the fingerprint of the content of
an inspected file that is the only inspected file of its name. -/
theorem scanPass_fingerprint (c : Collaborators) (t : Int) (e : directory_entry)
    (l : List directory_entry) (w w1 : World)
    (he : e ∈ l) (hins : skipped t e = some false)
    (honly : ∀ e1 ∈ l, skipped t e1 = some false →
      path_filename e1.path = path_filename e.path → e1 = e)
    (hdone : scanPass c t w l = .next w1) :
    fingerprint w1 (path_filename e.path) = some (c.hash (readFileContents e)) := by
  induction l generalizing w with
  | nil => simp at he
  | cons e0 rest ih =>
    simp only [scanPass] at hdone
    cases hse : scanEntry c t w e0 with
    | threw wa => rw [hse] at hdone; cases hdone
    | next wa =>
      rw [hse] at hdone
      simp only at hdone
      by_cases h0 : e0 = e
      · subst h0
        have hfp := scanEntry_fingerprint c t w wa e0 hins hse
        have hstable := scanPass_find_stable c t (path_filename e0.path) rest wa
          (by
            intro e1 he1 hs1 hn1
            have := honly e1 (List.mem_cons_of_mem _ he1) hs1 hn1
            subst this
            exact hfp)
        rw [hdone] at hstable
        simp only [Outcome.world] at hstable
        simpa [fingerprint, hstable] using hfp
      · have hmem : e ∈ rest := by
          rcases List.mem_cons.mp he with h | h
          · exact absurd h.symm h0
          · exact h
        exact ih wa hmem (fun e1 he1 => honly e1 (List.mem_cons_of_mem _ he1)) hdone

/-- A pass changes nothing at all when no query of its test throws and the
cache already holds the fingerprint of the content of every file it
inspects. -/
theorem scanPass_idle (c : Collaborators) (t : Int) (l : List directory_entry) (w : World)
    (hq : ∀ e ∈ l, skipped t e ≠ none)
    (h : ∀ e ∈ l, skipped t e = some false →
      fingerprint w (path_filename e.path) = some (c.hash (readFileContents e))) :
    scanPass c t w l = .next w := by
  induction l with
  | nil => rfl
  | cons e0 rest ih =>
    have hstep : scanEntry c t w e0 = .next w := by
      rcases scanEntry_cases c t w e0 with h1 | h1 | h1 | h1 | h1
      · exact h1.2
      · exact h1.2.2
      · exact absurd (h e0 (List.mem_cons_self _ _) h1.1) h1.2.1
      · exact absurd (h e0 (List.mem_cons_self _ _) h1.1) h1.2.1
      · exact absurd h1.1 (hq e0 (List.mem_cons_self _ _))
    simp only [scanPass, hstep]
    exact ih (fun e he => hq e (List.mem_cons_of_mem _ he))
      (fun e he => h e (List.mem_cons_of_mem _ he))

/-- C4 fails as stated: two files of one name and different contents, dated
after the clock reading that ends the first pass, are compiled again by the
second pass. -/
theorem second_pass_recompiles_same_name :
    ∃ w1 w2, scanPass lenient 0 start
        [file "shaders/a/x.vert" 100 "#A", file "shaders/b/x.vert" 100 "#B"] = .next w1 ∧
      scanPass lenient 50 w1
        [file "shaders/a/x.vert" 100 "#A", file "shaders/b/x.vert" 100 "#B"] = .next w2 ∧
      compilerInvocations w1.trace = 2 ∧ compilerInvocations w2.trace = 4 ∧
      deviceCalls w1.trace = 2 ∧ deviceCalls w2.trace = 4 ∧
      find w1.stash.shaders "x.vert" = some (fnv1a "#B", 1) ∧
      find w2.stash.shaders "x.vert" = some (fnv1a "#B", 3) := by
  refine ⟨_, _, rfl, rfl, ?_⟩
  decide

/-- C4, amended: when a pass over a listing completes, the next baseline is not
earlier than the one of that pass, and no file the second pass inspects shares
its name with another file the first pass inspected, a second pass over the
same listing changes nothing: no compiler invocation, no device call, the same
map. -/
theorem second_pass_changes_nothing (c : Collaborators) (t0 t1 : Int) (w w1 : World)
    (l : List directory_entry)
    (hnames : ∀ e ∈ l, skipped t1 e = some false → ∀ e1 ∈ l, skipped t0 e1 = some false →
      path_filename e1.path = path_filename e.path → e1 = e)
    (hclock : t0 ≤ t1)
    (hdone : scanPass c t0 w l = .next w1) :
    scanPass c t1 w1 l = .next w1 ∧
    compilerInvocations (scanPass c t1 w1 l).world.trace = compilerInvocations w1.trace ∧
    deviceCalls (scanPass c t1 w1 l).world.trace = deviceCalls w1.trace ∧
    (scanPass c t1 w1 l).world.stash.shaders = w1.stash.shaders := by
  have hidle : scanPass c t1 w1 l = .next w1 :=
    scanPass_idle c t1 l w1
      (fun e he => skipped_defined_mono t0 t1 e hclock (scanPass_defined c t0 l w w1 hdone e he))
      (fun e he hs =>
      scanPass_fingerprint c t0 e l w w1 he (skipped_mono t0 t1 e hclock hs)
        (hnames e he hs) hdone)
  rw [hidle]
  exact ⟨rfl, rfl, rfl, rfl⟩

/-- C4, amended, on three files, two of one name dated before the second
baseline and one dated after it. -/
theorem second_pass_changes_nothing_witness :
    scanPass lenient 50
        (scanPass lenient 0 start
          [file "shaders/a/x.vert" 10 "#A", file "shaders/b/x.vert" 10 "#B",
          file "shaders/c.frag" 100 "#C"]).world
        [file "shaders/a/x.vert" 10 "#A", file "shaders/b/x.vert" 10 "#B",
          file "shaders/c.frag" 100 "#C"] =
      .next (scanPass lenient 0 start
          [file "shaders/a/x.vert" 10 "#A", file "shaders/b/x.vert" 10 "#B",
          file "shaders/c.frag" 100 "#C"]).world ∧
    compilerInvocations (scanPass lenient 50
        (scanPass lenient 0 start
          [file "shaders/a/x.vert" 10 "#A", file "shaders/b/x.vert" 10 "#B",
          file "shaders/c.frag" 100 "#C"]).world
        [file "shaders/a/x.vert" 10 "#A", file "shaders/b/x.vert" 10 "#B",
          file "shaders/c.frag" 100 "#C"]).world.trace =
      compilerInvocations (scanPass lenient 0 start
          [file "shaders/a/x.vert" 10 "#A", file "shaders/b/x.vert" 10 "#B",
          file "shaders/c.frag" 100 "#C"]).world.trace ∧
    deviceCalls (scanPass lenient 50
        (scanPass lenient 0 start
          [file "shaders/a/x.vert" 10 "#A", file "shaders/b/x.vert" 10 "#B",
          file "shaders/c.frag" 100 "#C"]).world
        [file "shaders/a/x.vert" 10 "#A", file "shaders/b/x.vert" 10 "#B",
          file "shaders/c.frag" 100 "#C"]).world.trace =
      deviceCalls (scanPass lenient 0 start
          [file "shaders/a/x.vert" 10 "#A", file "shaders/b/x.vert" 10 "#B",
          file "shaders/c.frag" 100 "#C"]).world.trace ∧
    (scanPass lenient 50
        (scanPass lenient 0 start
          [file "shaders/a/x.vert" 10 "#A", file "shaders/b/x.vert" 10 "#B",
          file "shaders/c.frag" 100 "#C"]).world
        [file "shaders/a/x.vert" 10 "#A", file "shaders/b/x.vert" 10 "#B",
          file "shaders/c.frag" 100 "#C"]).world.stash.shaders =
      (scanPass lenient 0 start
          [file "shaders/a/x.vert" 10 "#A", file "shaders/b/x.vert" 10 "#B",
          file "shaders/c.frag" 100 "#C"]).world.stash.shaders :=
  second_pass_changes_nothing lenient 0 50 start
    (scanPass lenient 0 start
      [file "shaders/a/x.vert" 10 "#A", file "shaders/b/x.vert" 10 "#B",
          file "shaders/c.frag" 100 "#C"]).world
    [file "shaders/a/x.vert" 10 "#A", file "shaders/b/x.vert" 10 "#B",
          file "shaders/c.frag" 100 "#C"]
    (by decide) (by decide) (by decide)

/-! ## Failures -/

/-- C6 fails as stated: the compilation of `c.vert` fails, the device creates
a module from the empty code, and the pass inserts an entry for the file; an
entry cached before is replaced in the same way. -/
theorem failed_compilation_is_cached :
    (scenarioCompiler "oops" shaderc_vertex_shader "c.vert").status ≠ 0 ∧
    (get start.stash "c.vert").1 = none ∧
    (∃ w1, scanPass lenient 0 start [file "shaders/c.vert" 10 "oops"] = .next w1 ∧
      (get w1.stash "c.vert").1 = some 0 ∧ w1.modules[0]? = some []) ∧
    (∃ w1 w2, scanPass lenient 0 start [file "shaders/c.vert" 10 "#C"] = .next w1 ∧
      find w1.stash.shaders "c.vert" = some (fnv1a "#C", 0) ∧
      scanPass lenient 20 w1 [file "shaders/c.vert" 30 "oops"] = .next w2 ∧
      find w2.stash.shaders "c.vert" = some (fnv1a "oops", 1) ∧
      fnv1a "oops" ≠ fnv1a "#C" ∧ w2.modules[1]? = some []) := by
  refine ⟨by decide, by decide, ⟨_, rfl, ?_⟩, ⟨_, _, rfl, ?_, rfl, ?_⟩⟩
  · decide
  · decide
  · decide

/-- C6, amended: the pass does not look at the compilation status. For an
inspected file whose compilation fails, the entry is left as it was when it
already holds the fingerprint of the file's content, and when the device fails
on the words of the failed result, which ends the pass; when the device
creates a module from those words, the entry is inserted or replaced with the
fingerprint of the content and that module. -/
theorem scanEntry_ignores_compilation_status (c : Collaborators) (t : Int) (w : World)
    (e : directory_entry)
    (hins : skipped t e = some false)
    (_hfail : (c.CompileGlslToSpv (readFileContents e)
      (inferShaderKindFromFileExtension (path_extension e.path))
      (path_filename e.path)).status ≠ 0) :
    (fingerprint w (path_filename e.path) = some (c.hash (readFileContents e)) →
      scanEntry c t w e = .next w) ∧
    (fingerprint w (path_filename e.path) ≠ some (c.hash (readFileContents e)) →
      c.createShaderModule w.modules (compiledCode c e) = false →
      ∃ w1, scanEntry c t w e = .threw w1 ∧ w1.stash = w.stash ∧ w1.modules = w.modules) ∧
    (fingerprint w (path_filename e.path) ≠ some (c.hash (readFileContents e)) →
      c.createShaderModule w.modules (compiledCode c e) = true →
      ∃ w1, scanEntry c t w e = .next w1 ∧
        find w1.stash.shaders (path_filename e.path) =
          some (c.hash (readFileContents e), w.modules.length) ∧
        w1.modules = w.modules ++ [compiledCode c e]) := by
  rcases scanEntry_cases c t w e with h | h | h | h | h
  · rw [hins] at h; exact absurd h.1 (by simp)
  · exact ⟨fun _ => h.2.2, fun hne => absurd h.2.1 hne, fun hne => absurd h.2.1 hne⟩
  · refine ⟨fun heq => absurd heq h.2.1, fun _ hd => ?_, fun _ _ => ?_⟩
    · rw [h.2.2.1] at hd; cases hd
    · exact ⟨_, h.2.2.2, by simp [recompiled, find_store_same], rfl⟩
  · refine ⟨fun heq => absurd heq h.2.1, fun _ _ => ?_, fun _ hd => ?_⟩
    · exact ⟨_, h.2.2.2, rfl, rfl⟩
    · rw [h.2.2.1] at hd; cases hd
  · rw [hins] at h; exact absurd h.1 (by simp)

/-- C6, amended, on `c.vert` with a source that does not compile and a device
that creates a module from the empty code. -/
theorem scanEntry_ignores_compilation_status_witness :
    ∃ w1, scanEntry lenient 0 start (file "shaders/c.vert" 10 "oops") = .next w1 ∧
      find w1.stash.shaders (path_filename "shaders/c.vert") =
        some (fnv1a "oops", start.modules.length) ∧
      w1.modules = start.modules ++ [compiledCode lenient (file "shaders/c.vert" 10 "oops")] :=
  (scanEntry_ignores_compilation_status lenient 0 start (file "shaders/c.vert" 10 "oops")
    (by decide) (by decide)).2.2 (by decide) (by decide)

/-- A query of the test that throws ends the pass at that entry: the entries
listed after it are not processed. -/
theorem query_throw_ends_pass (c : Collaborators) (t : Int) (w w1 : World)
    (l1 l2 : List directory_entry) (e : directory_entry)
    (h1 : scanPass c t w l1 = .next w1) (he : skipped t e = none) :
    scanPass c t w (l1 ++ e :: l2) = .threw w1 := by
  rw [scanPass_append, h1]
  simp [scanPass, scanEntry, he]

/-- A pass with its iterator completes exactly when the pass over the entries
yielded completes and the iterator does not throw. -/
theorem scanDirectory_next (c : Collaborators) (t : Int) (w w1 : World) (dir : Listing) :
    scanDirectory c t w dir = .next w1 ↔
      scanPass c t w dir.entries = .next w1 ∧ dir.throws = false := by
  unfold scanDirectory
  cases hsp : scanPass c t w dir.entries with
  | threw w2 => simp
  | next w2 => cases dir.throws <;> simp

/-- C8 at the failing inputs. A regular file that has vanished since the
iterator read its directory makes the query of the last write time throw
before `exists()` is evaluated: the pass ends there and `d.frag`, listed after
it, is not processed. A file that passes the test of the loop and then fails
to open is read as the empty string, compiled, handed to the device, and
cached. -/
theorem unreadable_file_not_skipped :
    (skipped 0 (vanished "shaders/gone.vert") = none ∧
      ∃ w1, scanPass lenient 0 start
          [file "shaders/a.frag" 10 "#A", vanished "shaders/gone.vert",
            file "shaders/d.frag" 10 "#D"] = .threw w1 ∧
        w1.stash.shaders = [("a.frag", (fnv1a "#A", 0))] ∧
        (get w1.stash "d.frag").1 = none) ∧
    (skipped 0 (unopened "shaders/gone.vert" 10) = some false ∧
      ∃ w1, scanPass lenient 0 start [unopened "shaders/gone.vert" 10] = .next w1 ∧
        compilerInvocations start.trace = 0 ∧ compilerInvocations w1.trace = 1 ∧
        deviceCalls start.trace = 0 ∧ deviceCalls w1.trace = 1 ∧
        w1.trace = [Event.compile "" shaderc_vertex_shader "gone.vert",
          Event.createShaderModule [] true, Event.added "shaders/gone.vert"] ∧
        start.stash.shaders = [] ∧
        w1.stash.shaders = [("gone.vert", (fnv1a "", 0))]) := by
  refine ⟨⟨by decide, _, rfl, ?_⟩, ⟨by decide, _, rfl, ?_⟩⟩
  · decide
  · decide

/-! ## The lifecycle of the watcher -/

/-- A new stash is settled. -/
theorem settled_fresh (folder : String) (junk : Int) (ms : List (List Nat)) :
    Settled (World.fresh folder junk ms) := by
  simp [Settled, World.fresh, ShaderStash.new]

/-- `setHotReload` keeps the lifecycle invariant. -/
theorem settled_setHotReload (w : World) (val : Bool) (h : Settled w) :
    Settled (setHotReload w val) := by
  obtain ⟨h1, h2⟩ := h
  by_cases ht : w.stash.hotReloadThread = 0
  · cases val <;> simp_all [Settled, setHotReload, stopAndJoin]
  · cases val <;> simp_all [Settled, setHotReload, stopAndJoin]

/-- Every state reached by `setHotReload` calls is settled. -/
theorem settled_runCalls (calls : List Bool) (w : World) (h : Settled w) :
    Settled (runCalls w calls) := by
  induction calls generalizing w with
  | nil => exact h
  | cons val rest ih => exact ih _ (settled_setHotReload w val h)

/-- C9: after any sequence of `setHotReload` calls on a new stash, a further
call starts a background task exactly when its value is `true` and the watcher
is idle, stops and joins one exactly when its value is `false` and the watcher
is active, changes nothing when the value already matches the state, and
leaves at most one background task, the watcher being active exactly when the
value passed was `true`. -/
theorem setHotReload_lifecycle (folder : String) (junk : Int) (ms : List (List Nat))
    (calls : List Bool) (val : Bool) :
    ((setHotReload (runCalls (World.fresh folder junk ms) calls) val).spawned =
        (runCalls (World.fresh folder junk ms) calls).spawned + 1 ↔
      (val = true ∧ (runCalls (World.fresh folder junk ms) calls).stash.hotReloadThread = 0)) ∧
    ((setHotReload (runCalls (World.fresh folder junk ms) calls) val).spawned ≠
        (runCalls (World.fresh folder junk ms) calls).spawned + 1 →
      (setHotReload (runCalls (World.fresh folder junk ms) calls) val).spawned =
        (runCalls (World.fresh folder junk ms) calls).spawned) ∧
    ((setHotReload (runCalls (World.fresh folder junk ms) calls) val).live.length <
        (runCalls (World.fresh folder junk ms) calls).live.length ↔
      (val = false ∧ (runCalls (World.fresh folder junk ms) calls).stash.hotReloadThread ≠ 0)) ∧
    ((val = true ↔ (runCalls (World.fresh folder junk ms) calls).stash.hotReloadThread ≠ 0) →
      setHotReload (runCalls (World.fresh folder junk ms) calls) val =
        runCalls (World.fresh folder junk ms) calls) ∧
    (setHotReload (runCalls (World.fresh folder junk ms) calls) val).live.length ≤ 1 ∧
    (runCalls (World.fresh folder junk ms) calls).live.length ≤ 1 ∧
    ((setHotReload (runCalls (World.fresh folder junk ms) calls) val).stash.hotReloadThread ≠ 0 ↔
      val = true) ∧
    getHotReload (setHotReload (runCalls (World.fresh folder junk ms) calls) val).stash = val ∧
    (setHotReload (runCalls (World.fresh folder junk ms) calls) val).live =
      (if val = true then
        [(setHotReload (runCalls (World.fresh folder junk ms) calls) val).stash.hotReloadThread]
      else []) := by
  have hs := settled_runCalls calls _ (settled_fresh folder junk ms)
  generalize runCalls (World.fresh folder junk ms) calls = w at hs
  obtain ⟨⟨interval, path, flag, thread, shaders⟩, modules, trace, live, spawned⟩ := w
  obtain ⟨h1, h2⟩ := hs
  simp only at h1 h2
  by_cases ht : thread = 0
  · cases val <;> simp_all [setHotReload, stopAndJoin, getHotReload]
  · cases val <;> simp_all [setHotReload, stopAndJoin, getHotReload]

/-- C9 on the calls `true`, then `true`; and `true`, `false`, then `true`: the
second `true` changes nothing, and a `true` after a `false` starts a task. -/
theorem setHotReload_lifecycle_witness :
    setHotReload (runCalls (World.fresh "shaders" 0 []) [true]) true =
      runCalls (World.fresh "shaders" 0 []) [true] ∧
    (setHotReload (runCalls (World.fresh "shaders" 0 []) [true, false]) true).spawned =
      (runCalls (World.fresh "shaders" 0 []) [true, false]).spawned + 1 ∧
    (setHotReload (runCalls (World.fresh "shaders" 0 []) [true, false]) true).live = [2] :=
  ⟨(setHotReload_lifecycle "shaders" 0 [] [true] true).2.2.2.1 (by decide),
    (setHotReload_lifecycle "shaders" 0 [] [true, false] true).1.mpr (by decide),
    by decide⟩

/-! ## The scan interval -/

/-- The waits of two traces in a row. -/
theorem waits_append (a b : List Event) : waits (a ++ b) = waits a ++ waits b := by
  induction a with
  | nil => rfl
  | cons ev rest ih => cases ev <;> simp [waits, ih]

/-- The body of the loop records no wait. -/
theorem scanEntry_waits (c : Collaborators) (t : Int) (w : World) (e : directory_entry) :
    waits (scanEntry c t w e).world.trace = waits w.trace := by
  rcases scanEntry_cases c t w e with h | h | h | h | h
  · rw [h.2]; rfl
  · rw [h.2.2]; rfl
  · rw [h.2.2.2]
    simp only [Outcome.world, recompiled, waits_append]
    split <;> simp [waits]
  · rw [h.2.2.2]
    simp [Outcome.world, refused, waits_append, waits]
  · rw [h.2]; rfl

/-- A pass records no wait. -/
theorem scanPass_waits (c : Collaborators) (t : Int) (l : List directory_entry) (w : World) :
    waits (scanPass c t w l).world.trace = waits w.trace := by
  induction l generalizing w with
  | nil => rfl
  | cons e rest ih =>
    have h1 := scanEntry_waits c t w e
    simp only [scanPass]
    cases hse : scanEntry c t w e with
    | threw w1 => rw [hse] at h1; exact h1
    | next w1 => rw [hse] at h1; rw [ih w1]; exact h1

/-- A pass with its iterator records no wait. -/
theorem scanDirectory_waits (c : Collaborators) (t : Int) (dir : Listing) (w : World) :
    waits (scanDirectory c t w dir).world.trace = waits w.trace := by
  have h := scanPass_waits c t dir.entries w
  unfold scanDirectory
  cases hsp : scanPass c t w dir.entries with
  | threw w1 => rw [hsp] at h; exact h
  | next w1 =>
    rw [hsp] at h
    cases dir.throws <;> exact h

/-- Whatever scan interval is set, every wait of the worker is a wait of one
second. -/
theorem watchFiles_waits_one_second (c : Collaborators) (turns : List Turn) (t : Int)
    (w : World) (interval : Int) :
    ∃ n, n ≤ turns.length ∧
      waits (watchFilesFrom c t { w with stash := setScanInterval w.stash interval }
        turns).world.trace = waits w.trace ++ List.replicate n 1 := by
  suffices h : ∀ (turns : List Turn) (t : Int) (w0 : World), ∃ n, n ≤ turns.length ∧
      waits (watchFilesFrom c t w0 turns).world.trace = waits w0.trace ++ List.replicate n 1 from
    h turns t _
  intro turns
  induction turns with
  | nil => intro t w0; exact ⟨0, le_refl _, by simp [watchFilesFrom, Outcome.world]⟩
  | cons turn rest ih =>
    intro t w0
    simp only [watchFilesFrom]
    cases hstop : turn.stop_requested with
    | true => exact ⟨0, Nat.zero_le _, by simp [Outcome.world]⟩
    | false =>
      have hp := scanDirectory_waits c t turn.dir w0
      simp only [Bool.false_eq_true, if_false]
      cases hsp : scanDirectory c t w0 turn.dir with
      | threw w1 =>
        rw [hsp] at hp
        exact ⟨0, Nat.zero_le _, by simpa [Outcome.world] using hp⟩
      | next w1 =>
        rw [hsp] at hp
        simp only [Outcome.world] at hp
        obtain ⟨n, hn, hw⟩ := ih turn.now { w1 with trace := w1.trace ++ [Event.wait_for 1] }
        refine ⟨n + 1, by simpa using hn, ?_⟩
        rw [hw]
        simp [waits_append, waits, hp, List.replicate_succ]

/-- C10 at the failing input: after `setScanInterval` with zero seconds the
getter returns zero, and the worker, after its pass, still waits with a timeout
of one second. -/
theorem scan_interval_zero_waits_one_second :
    getScanInterval (setScanInterval start.stash 0) = 0 ∧
    (watchFiles lenient { start with stash := setScanInterval start.stash 0 }
      [{ stop_requested := false, dir := { entries := [], throws := false }, now := 5 },
       { stop_requested := true, dir := { entries := [], throws := false }, now := 9 }]
      ).world.trace = [Event.wait_for 1] ∧
    ¬ ((1 : Int) ≤ getScanInterval (setScanInterval start.stash 0)) := by
  decide

end shs
